import Mathlib

/-!
# Task store of the To-Do application (`src/App.js`)

A shallow embedding of the state held by the `App` component and of its event
handlers.  The four `useState` cells (`task`, `tasks`, `isEditClicked`,
`editTask`) become the fields of `AppState`; every handler becomes a function
from the state of the render that it closes over to the state committed after
the event.  `Alert.alert` is a side effect and is recorded in the `alerts` log;
`Date.now()` is an input of `addTask`.
-/

namespace TodoApp

/-! ## Data model -/

/-- An `Animated.Value` of React Native: the number it currently holds.
`addTask` creates it with `new Animated.Value(0)`. -/
structure AnimatedValue where
  value : Int
deriving DecidableEq

/-- One element of the `tasks` array.  `animationValue` is `none` when the
object has no such property (objects that were not built by `addTask`). -/
structure Task where
  id : String
  text : String
  status : Bool
  animationValue : Option AnimatedValue
deriving DecidableEq

/-- The state of the `App` component: the four `useState` cells, and the log of
the messages passed to `Alert.alert`. -/
structure AppState where
  task : String
  tasks : List Task
  isEditClicked : Bool
  editTask : Option Task
  alerts : List String
deriving DecidableEq

/-- The state of the first render: `useState('')`, `useState([])`,
`useState(false)`, `useState()`. -/
def initialState : AppState :=
  { task := "", tasks := [], isEditClicked := false, editTask := none, alerts := [] }

/-! ## `String.prototype.trim` -/

/-- The code points that ECMAScript counts as WhiteSpace or LineTerminator,
which are the ones `trim` strips. -/
def jsWhiteSpaceCodes : List Nat :=
  [9, 10, 11, 12, 13, 32, 160, 5760,
   8192, 8193, 8194, 8195, 8196, 8197, 8198, 8199, 8200, 8201, 8202,
   8232, 8233, 8239, 8287, 12288, 65279]

/-- Whether `trim` strips the character. -/
def jsIsWhiteSpace (c : Char) : Bool :=
  decide (c.toNat ∈ jsWhiteSpaceCodes)

/-- The characters of a string without the leading and trailing white space. -/
def trimChars (cs : List Char) : List Char :=
  ((cs.dropWhile jsIsWhiteSpace).reverse.dropWhile jsIsWhiteSpace).reverse

/-- The method call `s.trim()`. -/
def jsTrim (s : String) : String :=
  String.mk (trimChars s.data)

/-- Truthiness of a string value, as tested by `if (str)`: every string but the
empty one is truthy. -/
def jsTruthy (s : String) : Bool :=
  !(s.data.isEmpty)

/-! ## Event handlers -/

/-- The `onChangeText` callback `(text) => setTask(text)`: the input box reports
its text. -/
def setTask (text : String) (s : AppState) : AppState :=
  { s with task := text }

/-- The object literal `newTask` of `addTask`; `now` is the value of
`Date.now()`. -/
def newTask (now : Nat) (task : String) : Task :=
  { id := toString now, text := task, status := false,
    animationValue := some { value := 0 } }

/-- Handler `addTask`, lines 56-73.  The animation started on `animationValue` runs on
the native driver and changes no component state. -/
def addTask (now : Nat) (s : AppState) : AppState :=
  if jsTruthy (jsTrim s.task) then
    { s with tasks := s.tasks ++ [newTask now s.task], task := "" }
  else
    s

/-- Handler `deleteTask`, lines 76-78. -/
def deleteTask (taskId : String) (s : AppState) : AppState :=
  { s with tasks := s.tasks.filter (fun item => item.id != taskId) }

/-- Handler `markAsCompleted`, lines 81-87. -/
def markAsCompleted (taskId : String) (s : AppState) : AppState :=
  { s with
    tasks := (s.tasks.map
      (fun task => if task.id = taskId then { task with status := true } else task)) }

/-- The message of both `Alert.alert` calls. -/
def taskMissingMessage : String := "Task doesn\x27t exist"

/-- Handler `editTaskFun`, lines 90-99. -/
def editTaskFun (taskId : String) (s : AppState) : AppState :=
  match s.tasks.find? (fun item => item.id == taskId) with
  | some tempTask =>
      { s with editTask := some tempTask, task := tempTask.text, isEditClicked := true }
  | none => { s with alerts := s.alerts ++ [taskMissingMessage] }

/-- Handler `editDone`, lines 102-116. -/
def editDone (s : AppState) : AppState :=
  let s1 : AppState :=
    match s.editTask with
    | some edited =>
        if jsTruthy (jsTrim s.task) then
          { s with
            tasks := (s.tasks.map
              (fun tsk => if tsk.id = edited.id then { tsk with text := s.task } else tsk)),
            task := "" }
        else
          s
    | none => { s with alerts := s.alerts ++ [taskMissingMessage] }
  { s1 with isEditClicked := false }

/-- Handler `clearCompletedTasks`, lines 119-121. -/
def clearCompletedTasks (s : AppState) : AppState :=
  { s with tasks := s.tasks.filter (fun task => !task.status) }

/-! ## Serialisation -/

/-- A JSON document, the result of `JSON.stringify` before it is written out as
text.  An object keeps its members in order. -/
inductive Json where
  | null : Json
  | bool (b : Bool) : Json
  | num (n : Int) : Json
  | str (s : String) : Json
  | arr (items : List Json) : Json
  | obj (members : List (String × Json)) : Json

/-- The elements of a JSON array (none for any other document). -/
def Json.items : Json → List Json
  | Json.arr items => items
  | _ => []

/-- The member names of a JSON object (none for any other document). -/
def Json.keys : Json → List String
  | Json.obj members => members.map Prod.fst
  | _ => []

/-- What `JSON.stringify` writes for an `Animated.Value`: the node has a
`toJSON` method that returns the number it holds. -/
def AnimatedValue.toJson (a : AnimatedValue) : Json :=
  Json.num a.value

/-- What `JSON.stringify` writes for one task: a member for each own property
of the object, in the order of creation. -/
def Task.toJson (t : Task) : Json :=
  Json.obj
    ([("id", Json.str t.id), ("text", Json.str t.text), ("status", Json.bool t.status)]
      ++ (match t.animationValue with
          | some a => [("animationValue", a.toJson)]
          | none => []))

/-- The call `JSON.stringify(tasksToSave)`, line 36. -/
def jsonStringify (tasksToSave : List Task) : Json :=
  Json.arr (tasksToSave.map Task.toJson)

/-- Function `saveTasks`, lines 34-41: the value stored under the key
`@sampleToDoTasks`. -/
def saveTasks (tasksToSave : List Task) : Json :=
  jsonStringify tasksToSave

/-! ## Sequences of events -/

/-- The events the component reacts to. -/
inductive Op where
  | setTask (text : String)
  | addTask (now : Nat)
  | deleteTask (taskId : String)
  | markAsCompleted (taskId : String)
  | editTaskFun (taskId : String)
  | editDone
  | clearCompletedTasks
deriving DecidableEq

/-- The state committed after one event. -/
def step (s : AppState) : Op → AppState
  | Op.setTask text => setTask text s
  | Op.addTask now => addTask now s
  | Op.deleteTask taskId => deleteTask taskId s
  | Op.markAsCompleted taskId => markAsCompleted taskId s
  | Op.editTaskFun taskId => editTaskFun taskId s
  | Op.editDone => editDone s
  | Op.clearCompletedTasks => clearCompletedTasks s

/-- The state after a sequence of events, oldest first. -/
def run (s : AppState) (ops : List Op) : AppState :=
  ops.foldl step s

/-- The values `Date.now()` returned to the `addTask` calls of a sequence. -/
def clockReadings : List Op → List Nat
  | [] => []
  | Op.addTask now :: ops => now :: clockReadings ops
  | _ :: ops => clockReadings ops

/-! ## Reading a decimal numeral back -/

/-- The value of a decimal digit character. -/
def digitValue (c : Char) : Nat :=
  c.toNat - 48

/-- The number a list of decimal digits denotes, most significant digit first. -/
def decodeDigits (cs : List Char) : Nat :=
  cs.foldl (fun acc c => 10 * acc + digitValue c) 0

/-! ## Relating a task to its later version -/

/-- A task `new` is a later version of the task `old`: it has the same `id`, and
it is completed if `old` was. -/
def Evolves (old new : Task) : Prop :=
  new.id = old.id ∧ (old.status = true → new.status = true)

/-- Every task of the list carries an `animationValue` property. -/
def AllAnimated (s : AppState) : Prop :=
  ∀ t ∈ s.tasks, t.animationValue.isSome = true

end TodoApp

namespace TodoApp

/-! ## Decimal numerals are injective -/

theorem digitValue_digitChar (d : Nat) (h : d < 10) : digitValue (Nat.digitChar d) = d := by
  interval_cases d <;> rfl

theorem foldl_toDigitsCore (fuel : Nat) :
    ∀ (n : Nat) (acc : List Char), n < fuel →
      (Nat.toDigitsCore 10 fuel n acc).foldl (fun a c => 10 * a + digitValue c) 0
        = acc.foldl (fun a c => 10 * a + digitValue c) n := by
  induction fuel with
  | zero => intro n acc h; omega
  | succ fuel ih =>
    intro n acc h
    have hd : digitValue (Nat.digitChar (n % 10)) = n % 10 :=
      digitValue_digitChar _ (Nat.mod_lt _ (by decide))
    simp only [Nat.toDigitsCore]
    split
    · rename_i h0
      have hn : n < 10 := by omega
      simp only [List.foldl_cons, hd]
      congr 1
      omega
    · rename_i h0
      have hlt : n / 10 < fuel := by omega
      rw [ih (n / 10) _ hlt]
      simp only [List.foldl_cons, hd]
      congr 1
      omega

theorem decodeDigits_toString (n : Nat) : decodeDigits (toString n).data = n := by
  show decodeDigits (Nat.toDigits 10 n) = n
  unfold decodeDigits Nat.toDigits
  rw [foldl_toDigitsCore (n + 1) n [] (Nat.lt_succ_self n)]
  rfl

theorem toString_nat_injective : Function.Injective (fun n : Nat => toString n) := by
  intro a b h
  have h1 := decodeDigits_toString a
  have h2 := decodeDigits_toString b
  simp only at h
  rw [h] at h1
  omega

/-! ## General facts about the handlers -/

theorem jsTruthy_eq_true_iff (str : String) : jsTruthy str = true ↔ str ≠ "" := by
  cases str with
  | mk cs => cases cs <;> simp [jsTruthy, String.ext_iff]

theorem trimChars_of_all_whiteSpace (cs : List Char)
    (h : ∀ c ∈ cs, jsIsWhiteSpace c = true) : trimChars cs = [] := by
  have h1 : cs.dropWhile jsIsWhiteSpace = [] := List.dropWhile_eq_nil_iff.mpr h
  simp [trimChars, h1]

theorem run_cons (s : AppState) (op : Op) (ops : List Op) :
    run s (op :: ops) = run (step s op) ops := rfl

/-- A property of the state that every event preserves holds after every
sequence of events. -/
theorem run_preserves (P : AppState → Prop) (hstep : ∀ s op, P s → P (step s op))
    (ops : List Op) : ∀ s, P s → P (run s ops) := by
  induction ops with
  | nil => intro s h; exact h
  | cons op ops ih => intro s h; exact ih _ (hstep s op h)

/-! ## Adding a task -/

/-- C1, as stated, fails: with the input `" a "`, whose trimmed form `"a"` is
not empty, the task that `addTask` appends does not have the trimmed text. -/
theorem addTask_text_is_not_trimmed :
    jsTrim " a " ≠ "" ∧
    ¬ ∃ t : Task,
        (addTask 5 (setTask " a " initialState)).tasks
            = (setTask " a " initialState).tasks ++ [t]
          ∧ t.status = false ∧ t.text = jsTrim " a " := by
  refine ⟨by decide, ?_⟩
  rintro ⟨t, h1, -, h3⟩
  have h : (addTask 5 (setTask " a " initialState)).tasks = [newTask 5 " a "] := by decide
  rw [h] at h1
  simp only [setTask, initialState, List.nil_append, List.cons.injEq, and_true] at h1
  subst h1
  revert h3
  decide

/-- C1, amended: when the trimmed input is not empty, `addTask` yields the old
list followed by exactly one new task, whose `status` is `false` and whose
`text` is the input as typed, untrimmed. -/
theorem addTask_appends_one_task (now : Nat) (s : AppState) (h : jsTrim s.task ≠ "") :
    ∃ t : Task,
      (addTask now s).tasks = s.tasks ++ [t]
        ∧ (addTask now s).tasks.length = s.tasks.length + 1
        ∧ t.status = false ∧ t.text = s.task ∧ t.id = toString now := by
  have ht : jsTruthy (jsTrim s.task) = true := (jsTruthy_eq_true_iff _).mpr h
  refine ⟨newTask now s.task, ?_, ?_, rfl, rfl, rfl⟩
  · simp [addTask, ht]
  · simp [addTask, ht]

theorem addTask_appends_one_task_witness :
    jsTrim (setTask " a " initialState).task ≠ "" ∧
    ∃ t : Task,
      (addTask 5 (setTask " a " initialState)).tasks
          = (setTask " a " initialState).tasks ++ [t]
        ∧ (addTask 5 (setTask " a " initialState)).tasks.length
            = (setTask " a " initialState).tasks.length + 1
        ∧ t.status = false ∧ t.text = (setTask " a " initialState).task
        ∧ t.id = toString 5 :=
  ⟨by decide, addTask_appends_one_task 5 (setTask " a " initialState) (by decide)⟩

/-- C9: when the input is empty or holds white space only, `addTask` changes
nothing: the task list, the input and the alert log are the ones before. -/
theorem addTask_blank_input_is_noop (now : Nat) (s : AppState)
    (h : ∀ c ∈ s.task.data, jsIsWhiteSpace c = true) : addTask now s = s := by
  have h1 : jsTrim s.task = "" := by
    simp only [jsTrim, trimChars_of_all_whiteSpace _ h]
  simp [addTask, h1, jsTruthy]

theorem addTask_blank_input_is_noop_witness :
    (∀ c ∈ (setTask " \t\n" initialState).task.data, jsIsWhiteSpace c = true) ∧
    addTask 5 (setTask " \t\n" initialState) = setTask " \t\n" initialState :=
  ⟨by decide, addTask_blank_input_is_noop 5 (setTask " \t\n" initialState) (by decide)⟩

/-! ## Identifiers -/

theorem ids_filter_sublist (p : Task → Bool) (ts : List Task) :
    ((ts.filter p).map Task.id).Sublist (ts.map Task.id) :=
  List.Sublist.map _ (List.filter_sublist ts)

theorem ids_markAsCompleted (taskId : String) (s : AppState) :
    (markAsCompleted taskId s).tasks.map Task.id = s.tasks.map Task.id := by
  simp only [markAsCompleted, List.map_map]
  apply List.map_congr_left
  intro t _
  by_cases h : t.id = taskId <;> simp [h]

theorem ids_editDone (s : AppState) :
    (editDone s).tasks.map Task.id = s.tasks.map Task.id := by
  unfold editDone
  cases s.editTask with
  | none => rfl
  | some edited =>
    by_cases ht : jsTruthy (jsTrim s.task) = true
    · simp only [ht, if_true, List.map_map]
      apply List.map_congr_left
      intro t _
      by_cases h : t.id = edited.id <;> simp [h]
    · simp [ht]

theorem tasks_editTaskFun (taskId : String) (s : AppState) :
    (editTaskFun taskId s).tasks = s.tasks := by
  unfold editTaskFun
  cases s.tasks.find? (fun item => item.id == taskId) <;> rfl

/-- One event keeps the identifiers of the list, in order, drops some of them,
or appends the one made from the clock reading of an `addTask`. -/
theorem ids_step_sublist (s : AppState) (op : Op) :
    ((step s op).tasks.map Task.id).Sublist
      (s.tasks.map Task.id ++ (clockReadings [op]).map (fun n : Nat => toString n)) := by
  cases op with
  | setTask text => simp [step, setTask, clockReadings]
  | addTask now =>
    simp only [step, addTask, clockReadings, List.map_cons, List.map_nil]
    split
    · simp [newTask]
    · exact List.sublist_append_left _ _
  | deleteTask taskId =>
    simpa [step, deleteTask, clockReadings] using ids_filter_sublist _ s.tasks
  | markAsCompleted taskId =>
    simp [step, clockReadings, ids_markAsCompleted]
  | editTaskFun taskId =>
    simp [step, clockReadings, tasks_editTaskFun]
  | editDone =>
    simp [step, clockReadings, ids_editDone]
  | clearCompletedTasks =>
    simpa [step, clearCompletedTasks, clockReadings] using ids_filter_sublist _ s.tasks

theorem clockReadings_cons (op : Op) (ops : List Op) :
    clockReadings (op :: ops) = clockReadings [op] ++ clockReadings ops := by
  cases op <;> simp [clockReadings]

theorem ids_run_sublist (ops : List Op) :
    ∀ s : AppState, ((run s ops).tasks.map Task.id).Sublist
      (s.tasks.map Task.id ++ (clockReadings ops).map (fun n : Nat => toString n)) := by
  induction ops with
  | nil => intro s; simp [run, clockReadings]
  | cons op ops ih =>
    intro s
    rw [run_cons, clockReadings_cons, List.map_append, ← List.append_assoc]
    exact (ih (step s op)).trans (List.Sublist.append (ids_step_sublist s op) (List.Sublist.refl _))

/-- C2, as stated, fails: two `addTask` calls that read the same clock value
give two tasks with the same `id`. -/
theorem ids_collide_on_equal_clock_readings :
    ¬ ((run initialState
          [Op.setTask "a", Op.addTask 5, Op.setTask "b", Op.addTask 5]).tasks.map
        Task.id).Nodup := by
  decide

/-- C2, amended: for every sequence of events applied from the empty list in
which the clock readings of the `addTask` calls are pairwise distinct, the
`id` values of the resulting tasks are pairwise distinct. -/
theorem ids_nodup_of_distinct_clock_readings (ops : List Op)
    (h : (clockReadings ops).Nodup) :
    ((run initialState ops).tasks.map Task.id).Nodup := by
  have hsub := ids_run_sublist ops initialState
  simp only [initialState, List.map_nil, List.nil_append] at hsub
  exact List.Nodup.sublist hsub (List.Nodup.map toString_nat_injective h)

theorem ids_nodup_of_distinct_clock_readings_witness :
    (clockReadings [Op.setTask "a", Op.addTask 5, Op.markAsCompleted "5",
        Op.setTask "b", Op.addTask 6]).Nodup ∧
    ((run initialState [Op.setTask "a", Op.addTask 5, Op.markAsCompleted "5",
        Op.setTask "b", Op.addTask 6]).tasks.map Task.id).Nodup :=
  ⟨by decide, ids_nodup_of_distinct_clock_readings _ (by decide)⟩

/-! ## Clearing, completing and deleting -/

/-- C3: `clearCompletedTasks` yields exactly the tasks whose `status` is
`false`, in their old order: the result is a sub-sequence of the old list, it
holds no completed task, and every pending task occurs in it as often as it
did before. -/
theorem clearCompletedTasks_keeps_exactly_pending (s : AppState) :
    (clearCompletedTasks s).tasks = s.tasks.filter (fun t => t.status == false)
      ∧ (clearCompletedTasks s).tasks.Sublist s.tasks
      ∧ (∀ t ∈ (clearCompletedTasks s).tasks, t.status = false)
      ∧ (∀ t : Task, t.status = false →
          (clearCompletedTasks s).tasks.count t = s.tasks.count t)
      ∧ (clearCompletedTasks
            { s with tasks := [{ id := "1", text := "x", status := true, animationValue := none },
                               { id := "2", text := "y", status := false,
                                 animationValue := none }] }).tasks
          = [{ id := "2", text := "y", status := false, animationValue := none }] := by
  refine ⟨?_, List.filter_sublist _, ?_, ?_, rfl⟩
  · simp only [clearCompletedTasks]
    congr 1
    funext t
    cases t.status <;> rfl
  · intro t ht
    simp only [clearCompletedTasks, List.mem_filter] at ht
    simpa using ht.2
  · intro t ht
    simp only [clearCompletedTasks]
    rw [List.count_filter]
    simp [ht]

/-- C6: applying `markAsCompleted` twice with the same `id` yields the same
state as applying it once. -/
theorem markAsCompleted_idempotent (taskId : String) (s : AppState) :
    markAsCompleted taskId (markAsCompleted taskId s) = markAsCompleted taskId s := by
  simp only [markAsCompleted, List.map_map]
  congr 1
  apply List.map_congr_left
  intro t _
  by_cases h : t.id = taskId <;> simp [h]

/-- C10: `deleteTask` with an `id` that no task of the list carries leaves the
whole state as it was: same tasks in the same order, and nothing added to the
alert log. -/
theorem deleteTask_absent_id_is_noop (taskId : String) (s : AppState)
    (h : ∀ t ∈ s.tasks, t.id ≠ taskId) : deleteTask taskId s = s := by
  have hf : s.tasks.filter (fun item => item.id != taskId) = s.tasks := by
    rw [List.filter_eq_self]
    intro t ht
    simpa using h t ht
  simp only [deleteTask, hf]

theorem deleteTask_absent_id_is_noop_witness :
    (∀ t ∈ (run initialState [Op.setTask "a", Op.addTask 5]).tasks, t.id ≠ "7") ∧
    deleteTask "7" (run initialState [Op.setTask "a", Op.addTask 5])
      = run initialState [Op.setTask "a", Op.addTask 5] :=
  ⟨by decide, deleteTask_absent_id_is_noop "7" _ (by decide)⟩

/-! ## Editing -/

/-- C4, as stated, fails: after an edit was begun on task `"5"` and committed
with the text `"b"`, `editTask` still holds the task. -/
theorem editDone_leaves_editTask_populated :
    ¬ ((editDone (run initialState
          [Op.setTask "a", Op.addTask 5, Op.editTaskFun "5", Op.setTask "b"])).editTask = none
        ∧ (editDone (run initialState
          [Op.setTask "a", Op.addTask 5, Op.editTaskFun "5", Op.setTask "b"])).isEditClicked
            = false) := by
  decide

/-- C4, amended: in all three cases `editDone` ends with edit mode inactive
(`isEditClicked` is `false`), and it leaves `editTask` as it was. -/
theorem editDone_exits_edit_mode (s : AppState) :
    (editDone s).isEditClicked = false ∧ (editDone s).editTask = s.editTask := by
  cases he : s.editTask with
  | none => simp [editDone, he]
  | some edited =>
    by_cases ht : jsTruthy (jsTrim s.task) = true
    · simp [editDone, he, ht]
    · simp [editDone, he, ht]

theorem find_isSome_of_present (taskId : String) (ts : List Task)
    (h : ∃ t ∈ ts, t.id = taskId) :
    ∃ t0, ts.find? (fun item => item.id == taskId) = some t0 ∧ t0.id = taskId := by
  cases hf : ts.find? (fun item => item.id == taskId) with
  | none =>
    obtain ⟨t, ht, hid⟩ := h
    have := List.find?_eq_none.mp hf t ht
    simp [hid] at this
  | some t0 =>
    have := List.find?_some hf
    exact ⟨t0, rfl, by simpa using this⟩

/-- C7: after `editTaskFun` on an `id` that a task of the list carries, typing
a non-empty text `txt` without leading or trailing white space and pressing
Done gives a list of the same length and order, in which every task with that
`id` has the text `txt` and its old `id` and `status`, and every other task is
unchanged; the `editTask` slot holds a task with that `id`. -/
theorem editDone_overwrites_text_by_id (s : AppState) (taskId txt : String)
    (hpresent : ∃ t ∈ s.tasks, t.id = taskId) (hne : txt ≠ "") (htrim : jsTrim txt = txt) :
    (editTaskFun taskId s).editTask.map Task.id = some taskId
      ∧ (editDone (setTask txt (editTaskFun taskId s))).tasks.length = s.tasks.length
      ∧ List.Forall₂
          (fun old new : Task =>
            new.id = old.id ∧ new.status = old.status
              ∧ new.animationValue = old.animationValue
              ∧ (old.id = taskId → new.text = txt) ∧ (old.id ≠ taskId → new = old))
          s.tasks (editDone (setTask txt (editTaskFun taskId s))).tasks := by
  obtain ⟨t0, hfind, hid⟩ := find_isSome_of_present taskId s.tasks hpresent
  have ht : jsTruthy (jsTrim txt) = true := by
    rw [htrim]; exact (jsTruthy_eq_true_iff _).mpr hne
  have htasks : (editDone (setTask txt (editTaskFun taskId s))).tasks
      = s.tasks.map (fun tsk => if tsk.id = taskId then { tsk with text := txt } else tsk) := by
    simp [editDone, setTask, editTaskFun, hfind, ht, hid]
  refine ⟨by simp [editTaskFun, hfind, hid], by simp [htasks], ?_⟩
  rw [htasks, List.forall₂_map_right_iff, List.forall₂_same]
  intro t _
  by_cases h : t.id = taskId <;> simp [h]

theorem editDone_overwrites_text_by_id_witness :
    (∃ t ∈ (run initialState [Op.setTask "Buy milk", Op.addTask 1]).tasks, t.id = "1")
      ∧ "Buy bread" ≠ "" ∧ jsTrim "Buy bread" = "Buy bread"
      ∧ ((editTaskFun "1"
            (run initialState [Op.setTask "Buy milk", Op.addTask 1])).editTask.map Task.id
          = some "1"
        ∧ (editDone (setTask "Buy bread" (editTaskFun "1"
              (run initialState [Op.setTask "Buy milk", Op.addTask 1])))).tasks.length
            = (run initialState [Op.setTask "Buy milk", Op.addTask 1]).tasks.length
        ∧ List.Forall₂
            (fun old new : Task =>
              new.id = old.id ∧ new.status = old.status
                ∧ new.animationValue = old.animationValue
                ∧ (old.id = "1" → new.text = "Buy bread") ∧ (old.id ≠ "1" → new = old))
            (run initialState [Op.setTask "Buy milk", Op.addTask 1]).tasks
            (editDone (setTask "Buy bread" (editTaskFun "1"
              (run initialState [Op.setTask "Buy milk", Op.addTask 1])))).tasks) :=
  ⟨by decide, by decide, by decide,
    editDone_overwrites_text_by_id (run initialState [Op.setTask "Buy milk", Op.addTask 1])
      "1" "Buy bread" (by decide) (by decide) (by decide)⟩

/-! ## Completed tasks stay completed -/

theorem forall₂_evolves_map (f : Task → Task) (hf : ∀ t, Evolves t (f t)) (ts : List Task) :
    List.Forall₂ Evolves ts (ts.map f) := by
  rw [List.forall₂_map_right_iff, List.forall₂_same]
  intro t _
  exact hf t

theorem forall₂_evolves_refl (ts : List Task) : List.Forall₂ Evolves ts ts := by
  rw [List.forall₂_same]
  intro t _
  exact ⟨rfl, id⟩

/-- C8: for every state and every event, the list after the event is made of
later versions of some of the old tasks, in their old order, followed by the
tasks that an `addTask` created; a later version has the `id` of the old task
and is completed whenever the old task was.  So no event turns a completed
task that stays in the list back into a pending one. -/
theorem completed_task_stays_completed (s : AppState) (op : Op) :
    ∃ kept survivors fresh : List Task,
      kept.Sublist s.tasks
        ∧ List.Forall₂ Evolves kept survivors
        ∧ (step s op).tasks = survivors ++ fresh
        ∧ ∀ a ∈ fresh, ∃ now, op = Op.addTask now ∧ a = newTask now s.task := by
  cases op with
  | setTask text =>
    exact ⟨s.tasks, s.tasks, [], List.Sublist.refl _, forall₂_evolves_refl _, by simp [step, setTask],
      by simp⟩
  | addTask now =>
    by_cases ht : jsTruthy (jsTrim s.task) = true
    · exact ⟨s.tasks, s.tasks, [newTask now s.task], List.Sublist.refl _, forall₂_evolves_refl _,
        by simp [step, addTask, ht], by simp⟩
    · exact ⟨s.tasks, s.tasks, [], List.Sublist.refl _, forall₂_evolves_refl _,
        by simp [step, addTask, ht], by simp⟩
  | deleteTask taskId =>
    exact ⟨(deleteTask taskId s).tasks, (deleteTask taskId s).tasks, [],
      List.filter_sublist s.tasks, forall₂_evolves_refl _, by simp [step], by simp⟩
  | markAsCompleted taskId =>
    refine ⟨s.tasks, (markAsCompleted taskId s).tasks, [], List.Sublist.refl _,
      forall₂_evolves_map _ ?_ s.tasks, by simp [step], by simp⟩
    intro t
    by_cases h : t.id = taskId <;> simp [h, Evolves]
  | editTaskFun taskId =>
    exact ⟨s.tasks, s.tasks, [], List.Sublist.refl _, forall₂_evolves_refl _,
      by simp [step, tasks_editTaskFun], by simp⟩
  | editDone =>
    cases he : s.editTask with
    | none =>
      exact ⟨s.tasks, s.tasks, [], List.Sublist.refl _, forall₂_evolves_refl _,
        by simp [step, editDone, he], by simp⟩
    | some edited =>
      by_cases ht : jsTruthy (jsTrim s.task) = true
      · refine ⟨s.tasks,
          s.tasks.map (fun tsk => if tsk.id = edited.id then { tsk with text := s.task } else tsk),
          [], List.Sublist.refl _, forall₂_evolves_map _ ?_ s.tasks,
          by simp [step, editDone, he, ht], by simp⟩
        intro t
        by_cases h : t.id = edited.id <;> simp [h, Evolves]
      · exact ⟨s.tasks, s.tasks, [], List.Sublist.refl _, forall₂_evolves_refl _,
          by simp [step, editDone, he, ht], by simp⟩
  | clearCompletedTasks =>
    exact ⟨(clearCompletedTasks s).tasks, (clearCompletedTasks s).tasks, [],
      List.filter_sublist s.tasks, forall₂_evolves_refl _, by simp [step], by simp⟩

/-! ## What is saved -/

theorem allAnimated_step (s : AppState) (op : Op) (h : AllAnimated s) :
    AllAnimated (step s op) := by
  cases op with
  | setTask text => exact h
  | addTask now =>
    simp only [step, addTask]
    split
    · intro t ht
      simp only [List.mem_append, List.mem_singleton] at ht
      rcases ht with ht | ht
      · exact h t ht
      · subst ht; rfl
    · exact h
  | deleteTask taskId =>
    intro t ht
    exact h t (List.mem_of_mem_filter ht)
  | markAsCompleted taskId =>
    intro t ht
    simp only [step, markAsCompleted, List.mem_map] at ht
    obtain ⟨u, hu, rfl⟩ := ht
    have := h u hu
    split <;> simpa using this
  | editTaskFun taskId =>
    intro t ht
    simp only [step, tasks_editTaskFun] at ht
    exact h t ht
  | editDone =>
    intro t ht
    simp only [step, editDone] at ht
    cases he : s.editTask with
    | none => simp only [he] at ht; exact h t ht
    | some edited =>
      simp only [he] at ht
      split at ht
      · simp only [List.mem_map] at ht
        obtain ⟨u, hu, rfl⟩ := ht
        have := h u hu
        split <;> simpa using this
      · exact h t ht
  | clearCompletedTasks =>
    intro t ht
    exact h t (List.mem_of_mem_filter ht)

/-- C5, as stated, fails: the object saved for a task that `addTask` created
has a fourth member, `animationValue`. -/
theorem saved_task_carries_animationValue :
    (¬ ∀ j ∈ (saveTasks (run initialState [Op.setTask "a", Op.addTask 5]).tasks).items,
        j.keys = ["id", "text", "status"])
      ∧ ∃ j ∈ (saveTasks (run initialState [Op.setTask "a", Op.addTask 5]).tasks).items,
          "animationValue" ∈ j.keys := by
  decide

/-- C5, amended: for every list that the events produce from the empty list,
the saved value is an array with one object per task, in order, and every
object has exactly the four members `id`, `text`, `status` and
`animationValue`: the animation state is part of what is saved. -/
theorem saved_tasks_have_four_members (ops : List Op) :
    saveTasks (run initialState ops).tasks
        = Json.arr ((run initialState ops).tasks.map Task.toJson)
      ∧ (saveTasks (run initialState ops).tasks).items.length
          = (run initialState ops).tasks.length
      ∧ ∀ j ∈ (saveTasks (run initialState ops).tasks).items,
          j.keys = ["id", "text", "status", "animationValue"] := by
  have hinv : AllAnimated (run initialState ops) :=
    run_preserves AllAnimated allAnimated_step ops initialState (by intro t ht; simp [initialState] at ht)
  refine ⟨rfl, by simp [saveTasks, jsonStringify, Json.items], ?_⟩
  intro j hj
  simp only [saveTasks, jsonStringify, Json.items, List.mem_map] at hj
  obtain ⟨t, ht, rfl⟩ := hj
  have hsome := hinv t ht
  cases ha : t.animationValue with
  | none => simp [ha] at hsome
  | some a => simp [Task.toJson, ha, Json.keys]

end TodoApp
